import Mathlib

/-!
Shallow embedding of the go-ovn OVSDB client
(`vendor/github.com/ebay/go-ovn/ovnimp.go` and `client.go`).

Wire values are atoms (string, integer, boolean, uuid reference, null),
sets of atoms, and maps from atom to atom.  Go's `map[string]X` values are
modelled as association lists; Go map assignment replaces the binding of an
existing key and otherwise appends, and Go map iteration visits each binding
once (list order stands in for Go's unspecified iteration order).
-/

namespace GoOvn

/-- An atomic OVSDB value (`interface\x7b\x7d` holding a scalar in the Go code). -/
inductive Atom where
  | str (s : String)
  | int (n : Int)
  | bool (b : Bool)
  | uuid (u : String)
  | null
deriving DecidableEq

/-- A column value: an atom, an `OvsSet` (list of atoms) or an `OvsMap`
(association list of atoms).  The Go code stores these as `interface\x7b\x7d`
inside `libovsdb.Row.Fields`. -/
inductive Value where
  | atom (a : Atom)
  | set (xs : List Atom)
  | map (m : List (Atom × Atom))
deriving DecidableEq

/-- `libovsdb.Row`: its `Fields` map from column name to value. -/
abbrev Row := List (String × Value)

/-- `row.Fields[f]` lookup (comma-ok form). -/
def getField : Row → String → Option Value
  | [], _ => none
  | (a, b) :: t, f => if a = f then some b else getField t f

/-- `row.Fields[f] = v` Go map assignment. -/
def setField : Row → String → Value → Row
  | [], f, v => [(f, v)]
  | (a, b) :: t, f, v => if a = f then (f, v) :: t else (a, b) :: setField t f v

/-- The `GoMap` of a `libovsdb.OvsMap`. -/
abbrev GoMap := List (Atom × Atom)

/-- `m[k]` lookup on an `OvsMap`'s `GoMap` (comma-ok form). -/
def mapGet : GoMap → Atom → Option Atom
  | [], _ => none
  | (a, b) :: t, k => if a = k then some b else mapGet t k

/-- `m[k] = v` Go map assignment on a `GoMap`. -/
def mapPut : GoMap → Atom → Atom → GoMap
  | [], k, v => [(k, v)]
  | (a, b) :: t, k, v => if a = k then (k, v) :: t else (a, b) :: mapPut t k v

/-- `delete(m, k)` on a `GoMap`. -/
def mapDel : GoMap → Atom → GoMap
  | [], _ => []
  | (a, b) :: t, k => if a = k then mapDel t k else (a, b) :: mapDel t k

/-- The `Type` string of a `libovsdb.ColumnSchema`, as switched on by
`initMissingColumnsWithDefaults` and `applyUpdatesToRow`.  `other` stands for
every string not named in those switches (`uuid`, ...). -/
inductive ColType where
  | integer | real | boolean | map | set | string | other
deriving DecidableEq

/-- The part of `libovsdb.ColumnSchema` the embedded functions consult:
its type string and `TypeObj.Min()` / `TypeObj.Max()`. -/
structure ColumnSchema where
  type : ColType
  min : Int
  max : Int
deriving DecidableEq

/-- `schema.Tables[table].Columns` as an association list. -/
abbrev TableSchema := List (String × ColumnSchema)

/-- `tableSchema.Columns[c]` lookup (comma-ok form). -/
def lookupColumn : TableSchema → String → Option ColumnSchema
  | [], _ => none
  | (a, b) :: t, c => if a = c then some b else lookupColumn t c

/-- The per-type default value synthesized by `initMissingColumnsWithDefaults`
(ovnimp.go): integer/real columns get the schema minimum, boolean columns get
null when the range is exactly 0..1 and false otherwise, map/set columns get
the empty map/set, string columns the empty string, anything else null. -/
def defaultForColumn (cs : ColumnSchema) : Value :=
  match cs.type with
  | .integer => .atom (.int cs.min)
  | .real => .atom (.int cs.min)
  | .boolean => if cs.min = 0 ∧ cs.max = 1 then .atom .null else .atom (.bool false)
  | .map => .map []
  | .set => .set []
  | .string => .atom (.str "")
  | .other => .atom .null

/-- `initMissingColumnsWithDefaults` (ovnimp.go): every schema column absent
from the row's fields is filled with its type default; present columns are
left alone. -/
def initMissingColumnsWithDefaults (ts : TableSchema) (row : Row) : Row :=
  ts.foldl
    (fun r p =>
      match getField r p.1 with
      | some _ => r
      | none => setField r p.1 (defaultForColumn p.2))
    row

/-- The body of `updateSetWithElem` (ovnimp.go): if `e` occurs in the set,
remove its first occurrence by overwriting it with the last element and
truncating; otherwise append `e`. -/
def updateSetWithElem (s : List Atom) (e : Atom) : List Atom :=
  match s.findIdx? (fun x => decide (x = e)) with
  | some i => (s.set i (s.getLastD e)).dropLast
  | none => s ++ [e]

/-- `modifySet` (ovnimp.go): wrap a bare scalar column value into a singleton
set, then toggle every element of the incoming diff against it.  A map value
cannot be a set column's content or a set element in the wire model; the Go
code would feed it through `NewOvsSet`'s error path, modelled here as `none`. -/
def modifySet (orig : Value) (elem : Value) : Option (List Atom) :=
  let cv : Option (List Atom) :=
    match orig with
    | .set xs => some xs
    | .atom a => some [a]
    | .map _ => none
  match elem with
  | .set es => cv.map (fun c => es.foldl updateSetWithElem c)
  | .atom a => cv.map (fun c => updateSetWithElem c a)
  | .map _ => none

/-- The 0..1 collapsing step at the end of `applyUpdatesToRow`'s set branch:
a one-element result is stored as the bare scalar, anything else as a set. -/
def collapseSingleton (nv : List Atom) : Value :=
  match nv with
  | [x] => .atom x
  | xs => .set xs

/-- The map branch of `applyUpdatesToRow` (ovnimp.go): for each incoming
key/value pair, a new key is inserted, a key present with a different value is
overwritten, and a key present with the same value is deleted. -/
def applyMapDiff (orig : GoMap) (diff : GoMap) : GoMap :=
  diff.foldl
    (fun m kv =>
      match mapGet m kv.1 with
      | none => mapPut m kv.1 kv.2
      | some pv => if pv ≠ kv.2 then mapPut m kv.1 kv.2 else mapDel m kv.1)
    orig

/-- One column of `applyUpdatesToRow`'s switch.  The Go code's type assertions
panic when a map-typed column does not hold `OvsMap` values (and its set
branch manipulates an untyped nil when the field is absent); those paths are
modelled as `none`. -/
def applyColumnDiff (cs : ColumnSchema) (origField : Option Value) (value : Value) :
    Option Value :=
  match cs.type with
  | .map =>
    match origField, value with
    | some (.map orig), .map diff => some (.map (applyMapDiff orig diff))
    | _, _ => none
  | .set =>
    if cs.max = 1 then some value
    else
      match origField with
      | some ov => (modifySet ov value).map collapseSingleton
      | none => none
  | _ => some value

/-- `applyUpdatesToRow` (ovnimp.go): fold the modify-diff's columns over the
cached row; columns missing from the table schema are skipped. -/
def applyUpdatesToRow (ts : TableSchema) (rowdiff : List (String × Value)) (row : Row) :
    Option Row :=
  rowdiff.foldlM
    (fun r cv =>
      match lookupColumn ts cv.1 with
      | none => some r
      | some cs =>
        (applyColumnDiff cs (getField r cv.1) cv.2).map (fun nv => setField r cv.1 nv))
    row

end GoOvn

namespace GoOvn

theorem getField_setField_self (r : Row) (f : String) (v : Value) :
    getField (setField r f v) f = some v := by
  induction r with
  | nil => simp [setField, getField]
  | cons p t ih =>
    by_cases h : p.1 = f
    · simp [setField, getField, h]
    · simp [setField, getField, h, ih]

theorem getField_setField_ne (r : Row) (f g : String) (v : Value) (h : f ≠ g) :
    getField (setField r f v) g = getField r g := by
  induction r with
  | nil => simp [setField, getField, h]
  | cons p t ih =>
    by_cases hp : p.1 = f
    · simp [setField, getField, hp, h]
    · simp [setField, getField, hp, ih]

theorem getField_init_preserved (ts : TableSchema) (row : Row) (col : String) (v : Value)
    (h : getField row col = some v) :
    getField (initMissingColumnsWithDefaults ts row) col = some v := by
  induction ts generalizing row with
  | nil => simpa [initMissingColumnsWithDefaults] using h
  | cons p t ih =>
    simp only [initMissingColumnsWithDefaults, List.foldl_cons]
    rcases hg : getField row p.1 with _ | w
    · by_cases hc : p.1 = col
      · subst hc; rw [hg] at h; cases h
      · have : getField (setField row p.1 (defaultForColumn p.2)) col = some v := by
          rw [getField_setField_ne _ _ _ _ hc, h]
        simpa [initMissingColumnsWithDefaults, hg] using ih _ this
    · simpa [initMissingColumnsWithDefaults, hg] using ih _ h

theorem getField_init_filled (ts : TableSchema) (row : Row) (col : String) (cs : ColumnSchema)
    (hlook : lookupColumn ts col = some cs) (habs : getField row col = none) :
    getField (initMissingColumnsWithDefaults ts row) col = some (defaultForColumn cs) := by
  induction ts generalizing row with
  | nil => cases hlook
  | cons p t ih =>
    simp only [initMissingColumnsWithDefaults, List.foldl_cons]
    by_cases hc : p.1 = col
    · subst hc
      rw [lookupColumn, if_pos rfl] at hlook
      cases hlook
      rw [habs]
      have hset : getField (setField row p.1 (defaultForColumn p.2)) p.1
          = some (defaultForColumn p.2) := getField_setField_self _ _ _
      simpa [initMissingColumnsWithDefaults] using
        getField_init_preserved t _ _ _ hset
    · rw [lookupColumn, if_neg hc] at hlook
      rcases hg : getField row p.1 with _ | w
      · have habs2 : getField (setField row p.1 (defaultForColumn p.2)) col = none := by
          rw [getField_setField_ne _ _ _ _ hc, habs]
        simpa [initMissingColumnsWithDefaults, hg] using ih _ hlook habs2
      · simpa [initMissingColumnsWithDefaults, hg] using ih _ hlook habs

/-- C3: after default synthesis, every schema column absent from the row holds
the type-specific default (integer/real: the schema minimum; boolean: null
exactly when the range is 0..1, else false; map: empty map; set: empty set;
string: empty string; anything else: null), and columns already present are
unchanged. -/
theorem claim_C3_default_synthesis (ts : TableSchema) (row : Row) (col : String)
    (cs : ColumnSchema) (hlook : lookupColumn ts col = some cs) :
    (getField row col = none →
      (cs.type = .integer ∨ cs.type = .real →
        getField (initMissingColumnsWithDefaults ts row) col = some (.atom (.int cs.min)))
      ∧ (cs.type = .boolean →
        getField (initMissingColumnsWithDefaults ts row) col
          = some (if cs.min = 0 ∧ cs.max = 1 then .atom .null else .atom (.bool false)))
      ∧ (cs.type = .map →
        getField (initMissingColumnsWithDefaults ts row) col = some (.map []))
      ∧ (cs.type = .set →
        getField (initMissingColumnsWithDefaults ts row) col = some (.set []))
      ∧ (cs.type = .string →
        getField (initMissingColumnsWithDefaults ts row) col = some (.atom (.str "")))
      ∧ (cs.type = .other →
        getField (initMissingColumnsWithDefaults ts row) col = some (.atom .null)))
    ∧ (∀ v, getField row col = some v →
        getField (initMissingColumnsWithDefaults ts row) col = some v) := by
  constructor
  · intro habs
    have hfill := getField_init_filled ts row col cs hlook habs
    refine ⟨?_, ?_, ?_, ?_, ?_, ?_⟩ <;> intro ht
    · rcases ht with ht | ht <;> simpa [defaultForColumn, ht] using hfill
    · simpa [defaultForColumn, ht] using hfill
    · simpa [defaultForColumn, ht] using hfill
    · simpa [defaultForColumn, ht] using hfill
    · simpa [defaultForColumn, ht] using hfill
    · simpa [defaultForColumn, ht] using hfill
  · intro v hv
    exact getField_init_preserved ts row col v hv

/-- C3 witness: an integer column with schema minimum 5, absent from the
inserted row, comes back as 5; a present column keeps its value. -/
theorem claim_C3_default_synthesis_witness :
    getField (initMissingColumnsWithDefaults
        [("n", ⟨ColType.integer, 5, 10⟩), ("s", ⟨ColType.string, 0, 1⟩)]
        [("s", Value.atom (.str "keep"))]) "n" = some (.atom (.int 5))
      ∧ getField (initMissingColumnsWithDefaults
        [("n", ⟨ColType.integer, 5, 10⟩), ("s", ⟨ColType.string, 0, 1⟩)]
        [("s", Value.atom (.str "keep"))]) "s" = some (.atom (.str "keep")) := by
  have h := claim_C3_default_synthesis
    [("n", ⟨ColType.integer, 5, 10⟩), ("s", ⟨ColType.string, 0, 1⟩)]
    [("s", Value.atom (.str "keep"))] "n" ⟨ColType.integer, 5, 10⟩ (by decide) |>.1
    (by decide)
  refine ⟨?_, ?_⟩
  · exact h.1 (Or.inl rfl)
  · exact (claim_C3_default_synthesis
      [("n", ⟨ColType.integer, 5, 10⟩), ("s", ⟨ColType.string, 0, 1⟩)]
      [("s", Value.atom (.str "keep"))] "s" ⟨ColType.string, 0, 1⟩ (by decide)).2
      (.atom (.str "keep")) (by decide)

end GoOvn

namespace GoOvn

theorem mapGet_mapPut_self (m : GoMap) (k v : Atom) :
    mapGet (mapPut m k v) k = some v := by
  induction m with
  | nil => simp [mapPut, mapGet]
  | cons p t ih =>
    by_cases h : p.1 = k
    · simp [mapPut, mapGet, h]
    · simp [mapPut, mapGet, h, ih]

theorem mapGet_mapDel_self (m : GoMap) (k : Atom) :
    mapGet (mapDel m k) k = none := by
  induction m with
  | nil => simp [mapDel, mapGet]
  | cons p t ih =>
    by_cases h : p.1 = k
    · simp [mapDel, mapGet, h, ih]
    · simp [mapDel, mapGet, h, ih]

theorem applyMapDiff_single (m : GoMap) (k v : Atom) :
    applyMapDiff m [(k, v)]
      = match mapGet m k with
        | none => mapPut m k v
        | some pv => if pv ≠ v then mapPut m k v else mapDel m k := by
  simp [applyMapDiff]

theorem applyUpdatesToRow_map_column (ts : TableSchema) (col : String) (cs : ColumnSchema)
    (d m : GoMap) (r : Row) (hcol : lookupColumn ts col = some cs)
    (htype : cs.type = ColType.map) (hfield : getField r col = some (.map m)) :
    applyUpdatesToRow ts [(col, Value.map d)] r
      = some (setField r col (.map (applyMapDiff m d))) := by
  simp [applyUpdatesToRow, hcol, applyColumnDiff, htype, hfield]

/-- C1 (amended): on a map-typed column, a modify-diff carrying `(k, v)`
inserts `k` when absent, overwrites when `k` holds a different value, and
removes `k` when it holds exactly `v`; applying the same diff twice restores
the original state of `k` whenever `k` was absent or held exactly `v`
(the toggle is not an inverse when `k` held a third, different value). -/
theorem claim_C1_map_diff_toggle (ts : TableSchema) (col : String) (cs : ColumnSchema)
    (m : GoMap) (k v : Atom) (r : Row)
    (hcol : lookupColumn ts col = some cs) (htype : cs.type = ColType.map)
    (hfield : getField r col = some (.map m)) :
    applyUpdatesToRow ts [(col, Value.map [(k, v)])] r
        = some (setField r col (.map (applyMapDiff m [(k, v)])))
    ∧ (mapGet m k = none → mapGet (applyMapDiff m [(k, v)]) k = some v)
    ∧ (∀ w, mapGet m k = some w → w ≠ v → mapGet (applyMapDiff m [(k, v)]) k = some v)
    ∧ (mapGet m k = some v → mapGet (applyMapDiff m [(k, v)]) k = none)
    ∧ applyUpdatesToRow ts [(col, Value.map [(k, v)])]
          (setField r col (.map (applyMapDiff m [(k, v)])))
        = some (setField (setField r col (.map (applyMapDiff m [(k, v)]))) col
            (.map (applyMapDiff (applyMapDiff m [(k, v)]) [(k, v)])))
    ∧ ((mapGet m k = none ∨ mapGet m k = some v) →
        mapGet (applyMapDiff (applyMapDiff m [(k, v)]) [(k, v)]) k = mapGet m k) := by
  refine ⟨applyUpdatesToRow_map_column ts col cs _ m r hcol htype hfield, ?_, ?_, ?_, ?_, ?_⟩
  · intro h
    rw [applyMapDiff_single, h]
    exact mapGet_mapPut_self m k v
  · intro w hw hne
    simp only [applyMapDiff_single, hw]
    rw [if_pos hne]
    exact mapGet_mapPut_self m k v
  · intro h
    simp only [applyMapDiff_single, h]
    rw [if_neg (fun hc => hc rfl)]
    exact mapGet_mapDel_self m k
  · exact applyUpdatesToRow_map_column ts col cs _ _ _ hcol htype
      (getField_setField_self r col _)
  · rintro (h | h)
    · have h1 : mapGet (applyMapDiff m [(k, v)]) k = some v := by
        simp only [applyMapDiff_single, h]; exact mapGet_mapPut_self m k v
      conv_lhs => rw [applyMapDiff_single]
      simp only [h1]
      rw [if_neg (fun hc => hc rfl), h]
      exact mapGet_mapDel_self _ k
    · have h1 : mapGet (applyMapDiff m [(k, v)]) k = none := by
        simp only [applyMapDiff_single, h]
        rw [if_neg (fun hc => hc rfl)]
        exact mapGet_mapDel_self m k
      conv_lhs => rw [applyMapDiff_single]
      simp only [h1]
      rw [h]
      exact mapGet_mapPut_self _ k v

/-- C1 witness: with an empty map and diff `(a, 1)` applied twice through the
row-level engine, key `a` ends as it began (absent). -/
theorem claim_C1_map_diff_toggle_witness :
    mapGet (applyMapDiff (applyMapDiff [] [(Atom.str "a", Atom.str "1")])
        [(Atom.str "a", Atom.str "1")]) (Atom.str "a") = mapGet [] (Atom.str "a") :=
  (claim_C1_map_diff_toggle [("c", ⟨ColType.map, 0, 0⟩)] "c" ⟨ColType.map, 0, 0⟩
      [] (Atom.str "a") (Atom.str "1") [("c", Value.map [])]
      (by decide) rfl (by decide)).2.2.2.2.2 (Or.inl rfl)

/-- C1 counterexample: with key `k` cached with value `2`, applying the diff
`(k, 1)` twice does not restore `k`'s original value — the first application
overwrites `2` with `1`, the second removes the key. -/
theorem claim_C1_counterexample :
    mapGet [(Atom.str "k", Atom.str "2")] (Atom.str "k") = some (Atom.str "2")
    ∧ applyUpdatesToRow [("c", ⟨ColType.map, 0, 0⟩)]
        [("c", Value.map [(Atom.str "k", Atom.str "1")])]
        [("c", Value.map [(Atom.str "k", Atom.str "2")])]
        = some [("c", Value.map [(Atom.str "k", Atom.str "1")])]
    ∧ applyUpdatesToRow [("c", ⟨ColType.map, 0, 0⟩)]
        [("c", Value.map [(Atom.str "k", Atom.str "1")])]
        [("c", Value.map [(Atom.str "k", Atom.str "1")])]
        = some [("c", Value.map [])]
    ∧ mapGet ([] : GoMap) (Atom.str "k") ≠ some (Atom.str "2") := by
  refine ⟨by decide, by decide, by decide, by decide⟩

end GoOvn

namespace GoOvn

/-- A cached table of `libovsdb.Row`s: row uuid → row. -/
abbrev CacheTable := List (String × Row)

/-- `cache[table][uuid]` lookup (comma-ok form). -/
def lookupRow : CacheTable → String → Option Row
  | [], _ => none
  | (a, b) :: t, u => if a = u then some b else lookupRow t u

/-- `cache[table][uuid] = row` Go map assignment. -/
def setRow : CacheTable → String → Row → CacheTable
  | [], u, r => [(u, r)]
  | (a, b) :: t, u, r => if a = u then (u, r) :: t else (a, b) :: setRow t u r

/-- `delete(cache[table], uuid)`. -/
def delRow : CacheTable → String → CacheTable
  | [], _ => []
  | (a, b) :: t, u => if a = u then delRow t u else (a, b) :: delRow t u

/-- Outcome of one table's snapshot-style update pass: the resulting cached
table, the uuids for which the create signal fired (in order), and the uuids
whose deletion (and delete signal) was deferred to the end of the pass. -/
structure SnapshotResult where
  table : CacheTable
  creates : List String
  deletes : List String
deriving DecidableEq

/-- The per-table loop of `populateCache` (ovnimp.go): a non-empty new row
that deep-equals the cached entry is skipped; a different non-empty row is
stored and create-signalled; an empty new row defers deletion (and the delete
signal) to the end of the pass, deferred calls running last-in first-out.
A uuid missing from the cached table compares against the zero `Row`. -/
def populateCacheTable (tbl : CacheTable) (updates : List (String × Row)) :
    SnapshotResult :=
  let acc := updates.foldl
    (fun (acc : CacheTable × List String × List String) u =>
      if u.2 = ([] : Row) then (acc.1, acc.2.1, u.1 :: acc.2.2)
      else if (lookupRow acc.1 u.1).getD [] = u.2 then acc
      else (setRow acc.1 u.1 u.2, acc.2.1 ++ [u.1], acc.2.2))
    (tbl, [], [])
  ⟨acc.2.2.foldl delRow acc.1, acc.2.1, acc.2.2⟩

/-- C2: re-delivering a snapshot-style update whose non-empty row content
deep-equals what the table already caches for that uuid leaves the cache
unchanged and fires no create signal. -/
theorem claim_C2_snapshot_idempotent (tbl : CacheTable) (uuid : String) (r : Row)
    (hlook : lookupRow tbl uuid = some r) (hne : r ≠ []) :
    populateCacheTable tbl [(uuid, r)] = ⟨tbl, [], []⟩ := by
  simp [populateCacheTable, hne, hlook]

/-- C2 witness: re-applying the cached content of row `u1` is a no-op. -/
theorem claim_C2_snapshot_idempotent_witness :
    populateCacheTable [("u1", [("name", Value.atom (.str "ls0"))])]
        [("u1", [("name", Value.atom (.str "ls0"))])]
      = ⟨[("u1", [("name", Value.atom (.str "ls0"))])], [], []⟩ :=
  claim_C2_snapshot_idempotent [("u1", [("name", Value.atom (.str "ls0"))])] "u1"
    [("name", Value.atom (.str "ls0"))] (by decide) (by decide)

end GoOvn

namespace GoOvn

/-- The fields of a `libovsdb.OperationResult` that `transact` inspects. -/
structure OpResult where
  error : String
  details : String
deriving DecidableEq

/-- The two errors `transact` can surface once the RPC round trip succeeded:
a server-reported per-operation failure, or a reply with fewer results than
operations (the protocol-conformance check). -/
inductive TransactErr where
  | opFailed (idx : Nat) (err details : String)
  | shortReply
deriving DecidableEq

/-- What `transact` hands back: the result array (nil when an operation
failed), the surfaced error, and whether it closed the connection. -/
structure TransactOutcome where
  result : Option (List OpResult)
  err : Option TransactErr
  closed : Bool
deriving DecidableEq

/-- The scan loop of `transact` (ovnimp.go): the first reply entry carrying a
non-empty error string, with its index. -/
def findFailedOp : List OpResult → Option (Nat × OpResult)
  | [] => none
  | o :: t =>
    if o.error ≠ "" then some (0, o)
    else (findFailedOp t).map (fun p => (p.1 + 1, p.2))

/-- `transact` (ovnimp.go) after the reply arrives: any failed operation
result closes the connection (`odbi.close()`) and returns a nil result with a
transaction error; otherwise a reply shorter than the operation list surfaces
the conformance error without closing; otherwise the reply is returned. -/
def transact (nops : Nat) (reply : List OpResult) : TransactOutcome :=
  match findFailedOp reply with
  | some p => ⟨none, some (.opFailed p.1 p.2.error p.2.details), true⟩
  | none =>
    if reply.length < nops then ⟨some reply, some .shortReply, false⟩
    else ⟨some reply, none, false⟩

theorem findFailedOp_eq_none_iff (reply : List OpResult) :
    findFailedOp reply = none ↔ ∀ o ∈ reply, o.error = "" := by
  induction reply with
  | nil => simp [findFailedOp]
  | cons o t ih =>
    by_cases h : o.error = ""
    · simp [findFailedOp, h, ih]
    · simp [findFailedOp, h]

/-- C5: a non-empty error string anywhere in the per-operation result array
makes `transact` return a nil result and close the connection; with no error
and a long-enough reply it returns the array, no error, connection open. -/
theorem claim_C5_transact_error_closes (nops : Nat) (reply : List OpResult) :
    ((∃ o ∈ reply, o.error ≠ "") →
      (transact nops reply).result = none ∧ (transact nops reply).closed = true
      ∧ ∃ i e d, (transact nops reply).err = some (.opFailed i e d))
    ∧ ((∀ o ∈ reply, o.error = "") → nops ≤ reply.length →
      (transact nops reply).result = some reply ∧ (transact nops reply).err = none
      ∧ (transact nops reply).closed = false) := by
  constructor
  · rintro ⟨o, ho, hne⟩
    have hfail : findFailedOp reply ≠ none := by
      intro hnone
      exact hne ((findFailedOp_eq_none_iff reply).1 hnone o ho)
    rcases hp : findFailedOp reply with _ | p
    · exact absurd hp hfail
    · simp [transact, hp]
  · intro hok hlen
    have hnone : findFailedOp reply = none := (findFailedOp_eq_none_iff reply).2 hok
    simp [transact, hnone, Nat.not_lt.2 hlen]

/-- C5 witness: a failure in the second slot of the reply closes the
connection and nils the result; a clean, long-enough reply passes through. -/
theorem claim_C5_transact_error_closes_witness :
    ((transact 2 [⟨"", ""⟩, ⟨"constraint violation", "dup"⟩]).result = none
      ∧ (transact 2 [⟨"", ""⟩, ⟨"constraint violation", "dup"⟩]).closed = true)
    ∧ ((transact 1 [⟨"", ""⟩]).result = some [⟨"", ""⟩]
      ∧ (transact 1 [⟨"", ""⟩]).err = none
      ∧ (transact 1 [⟨"", ""⟩]).closed = false) := by
  have h1 := (claim_C5_transact_error_closes 2
      [⟨"", ""⟩, ⟨"constraint violation", "dup"⟩]).1
    ⟨⟨"constraint violation", "dup"⟩, by decide, by decide⟩
  have h2 := (claim_C5_transact_error_closes 1 [⟨"", ""⟩]).2
    (by intro o ho; simp at ho; simp [ho]) (by decide)
  exact ⟨⟨h1.1, h1.2.1⟩, h2⟩

/-- C6: with no per-operation error, a reply strictly shorter than the
operation list surfaces the distinct protocol-conformance error and leaves
the connection open (and the reply is still returned); a long-enough reply
raises no error at all. -/
theorem claim_C6_short_reply_conformance (nops : Nat) (reply : List OpResult)
    (hok : ∀ o ∈ reply, o.error = "") :
    (reply.length < nops →
      (transact nops reply).err = some .shortReply
      ∧ (transact nops reply).closed = false
      ∧ (transact nops reply).result = some reply)
    ∧ (nops ≤ reply.length → (transact nops reply).err = none) := by
  have hnone : findFailedOp reply = none := (findFailedOp_eq_none_iff reply).2 hok
  constructor
  · intro hlt
    simp [transact, hnone, hlt]
  · intro hge
    simp [transact, hnone, Nat.not_lt.2 hge]

/-- C6 witness: one clean result against two operations raises the
conformance error without closing; one against one raises nothing. -/
theorem claim_C6_short_reply_conformance_witness :
    ((transact 2 [⟨"", ""⟩]).err = some .shortReply
      ∧ (transact 2 [⟨"", ""⟩]).closed = false)
    ∧ (transact 1 [⟨"", ""⟩]).err = none := by
  have h1 := (claim_C6_short_reply_conformance 2 [⟨"", ""⟩]
      (by intro o ho; simp at ho; simp [ho])).1 (by decide)
  have h2 := (claim_C6_short_reply_conformance 1 [⟨"", ""⟩]
      (by intro o ho; simp at ho; simp [ho])).2 (by decide)
  exact ⟨⟨h1.1, h1.2.1⟩, h2⟩

end GoOvn

namespace GoOvn

/-- The replica cache: table name → cached table. -/
abbrev Cache := List (String × CacheTable)

/-- `odbi.cache[table]` lookup (comma-ok form). -/
def lookupTable : Cache → String → Option CacheTable
  | [], _ => none
  | (a, b) :: t, n => if a = n then some b else lookupTable t n

/-- The inner loop of `getRowUUIDs` (ovnimp.go): a cached row matches when
every queried field that is present in the row equals the queried value; a
queried field absent from the row's fields never disqualifies it. -/
def rowMatches (query : Row) (r : Row) : Bool :=
  query.all (fun fv =>
    match getField r fv.1 with
    | some w => decide (w = fv.2)
    | none => true)

/-- `getRowUUIDs` (ovnimp.go): a query deep-equal to the empty row is a
wildcard returning every uuid of the table, otherwise the uuids of the
matching rows; a table missing from the cache yields nil. -/
def getRowUUIDs (cache : Cache) (table : String) (query : Row) : List String :=
  match lookupTable cache table with
  | none => []
  | some rows =>
    if query = ([] : Row) then rows.map (fun p => p.1)
    else (rows.filter (fun p => rowMatches query p.2)).map (fun p => p.1)

/-- `getRowUUID` (ovnimp.go): first match or the empty string. -/
def getRowUUID (cache : Cache) (table : String) (query : Row) : String :=
  match getRowUUIDs cache table query with
  | [] => ""
  | u :: _ => u

theorem rowMatches_iff (query r : Row) :
    rowMatches query r = true ↔
      ∀ fv ∈ query, ∀ w, getField r fv.1 = some w → w = fv.2 := by
  simp only [rowMatches, List.all_eq_true]
  constructor
  · intro h fv hfv w hw
    have hh := h fv hfv
    rw [hw] at hh
    simpa using hh
  · intro h fv hfv
    rcases hg : getField r fv.1 with _ | w
    · simp
    · simpa using h fv hfv w hg

/-- C10: with an empty query row the lookup returns every uuid of the table;
with a non-empty query a cached row is returned exactly when every queried
field present in the row equals the queried value, so a row lacking a queried
column is also returned. -/
theorem claim_C10_row_lookup (cache : Cache) (table : String) (query : Row)
    (rows : CacheTable) (hlook : lookupTable cache table = some rows) :
    (query = ([] : Row) → getRowUUIDs cache table query = rows.map (fun p => p.1))
    ∧ ∀ uuid, uuid ∈ getRowUUIDs cache table query ↔
        ∃ r, (uuid, r) ∈ rows ∧ ∀ fv ∈ query, ∀ w, getField r fv.1 = some w → w = fv.2 := by
  have hwild : query = ([] : Row) →
      getRowUUIDs cache table query = rows.map (fun p => p.1) := by
    intro hq
    simp [getRowUUIDs, hlook, hq]
  refine ⟨hwild, ?_⟩
  intro uuid
  by_cases hq : query = ([] : Row)
  · rw [hwild hq, List.mem_map]
    constructor
    · rintro ⟨p, hp, hpe⟩
      exact ⟨p.2, by rw [← hpe]; simpa using hp, by simp [hq]⟩
    · rintro ⟨r, hr, _⟩
      exact ⟨(uuid, r), hr, rfl⟩
  · have hfilt : getRowUUIDs cache table query
        = (rows.filter (fun p => rowMatches query p.2)).map (fun p => p.1) := by
      simp [getRowUUIDs, hlook, hq]
    rw [hfilt, List.mem_map]
    constructor
    · rintro ⟨p, hp, hpe⟩
      rw [List.mem_filter] at hp
      exact ⟨p.2, by rw [← hpe]; simpa using hp.1, (rowMatches_iff query p.2).1 hp.2⟩
    · rintro ⟨r, hr, hcond⟩
      exact ⟨(uuid, r), List.mem_filter.2 ⟨hr, (rowMatches_iff query r).2 hcond⟩, rfl⟩

/-- C10 witness: row `u2` lacks the queried column `a` entirely, yet is
returned by a query on `a`; the wildcard query returns both rows. -/
theorem claim_C10_row_lookup_witness :
    "u2" ∈ getRowUUIDs
        [("T", [("u1", [("a", Value.atom (.str "x"))]), ("u2", [("b", Value.atom (.int 3))])])]
        "T" [("a", Value.atom (.str "y"))]
    ∧ getRowUUIDs
        [("T", [("u1", [("a", Value.atom (.str "x"))]), ("u2", [("b", Value.atom (.int 3))])])]
        "T" ([] : Row) = ["u1", "u2"] := by
  constructor
  · exact ((claim_C10_row_lookup
      [("T", [("u1", [("a", Value.atom (.str "x"))]), ("u2", [("b", Value.atom (.int 3))])])]
      "T" [("a", Value.atom (.str "y"))]
      [("u1", [("a", Value.atom (.str "x"))]), ("u2", [("b", Value.atom (.int 3))])]
      (by decide)).2 "u2").2
      ⟨[("b", Value.atom (.int 3))], by decide,
        by intro fv hfv w hw; simp at hfv; subst hfv; simp [getField] at hw⟩
  · exact (claim_C10_row_lookup
      [("T", [("u1", [("a", Value.atom (.str "x"))]), ("u2", [("b", Value.atom (.int 3))])])]
      "T" ([] : Row)
      [("u1", [("a", Value.atom (.str "x"))]), ("u2", [("b", Value.atom (.int 3))])]
      (by decide)).1 rfl

end GoOvn

namespace GoOvn

/-- `TableLogicalSwitch`, declared in a go-ovn source file outside the
vendored pair; its value is the northbound switch table's name.  What matters
below is only that it is a fixed constant, not the `table` argument. -/
def TableLogicalSwitch : String := "Logical_Switch"

/-- The `opMutate` operation name. -/
def opMutate : String := "mutate"

/-- The `opDelete` name, used both as an operation and as a mutator verb. -/
def opDelete : String := "delete"

/-- `libovsdb.NewMutation(column, mutator, value)`. -/
structure Mutation where
  column : String
  mutator : String
  value : Value
deriving DecidableEq

/-- `libovsdb.NewCondition(column, function, value)`. -/
structure Condition where
  column : String
  fn : String
  value : Value
deriving DecidableEq

/-- The parts of a `libovsdb.Operation` that `auxKeyValDel` fills in. -/
structure Operation where
  op : String
  table : String
  mutations : List Mutation
  conditions : List Condition
deriving DecidableEq

/-- The possible outcomes of `auxKeyValDel`: the command's operation list, or
one of its two error returns. -/
inductive AuxDelResult where
  | cmd (operations : List Operation)
  | errEmptyKV
  | errNotFound
deriving DecidableEq

/-- `auxKeyValDel` (ovnimp.go): split the key/value argument map into
value-agnostic keys (nil value) and value-specific pairs, and build a single
mutate operation deleting both from the named column, conditioned on the
looked-up row uuid.  Note: the uuid lookup passes the constant
`TableLogicalSwitch` where every other use in the function takes the `table`
argument. -/
def auxKeyValDel (cache : Cache) (table rowName auxCol : String)
    (kv : List (String × Option String)) : AuxDelResult :=
  if kv = [] then .errEmptyKV
  else
    let ovnRow : Row := [("name", .atom (.str rowName))]
    let uuid := getRowUUID cache TableLogicalSwitch ovnRow
    if uuid = "" then .errNotFound
    else
      let delKeys := (kv.filter (fun p => p.2.isNone)).map (fun p => p.1)
      let delKeyVals := kv.filterMap (fun p => p.2.map (fun v => (p.1, v)))
      let muts :=
        (if delKeys = [] then []
          else [⟨auxCol, opDelete, .set (delKeys.map .str)⟩])
        ++ (if delKeyVals = [] then []
          else [⟨auxCol, opDelete, .map (delKeyVals.map (fun p => (.str p.1, .str p.2)))⟩])
      .cmd [⟨opMutate, table, muts, [⟨"_uuid", "==", .atom (.uuid uuid)⟩]⟩]

/-- C9 evaluation at the failing input: the cache holds a `Port_Group` row
named `pg1`, yet `auxKeyValDel` for table `Port_Group` reports not-found,
because the uuid lookup consults `TableLogicalSwitch`.  With a logical switch
of that name cached instead, the call produces its single mutate operation on
`Port_Group` — but conditioned on the switch row's uuid. -/
theorem claim_C9_wrong_lookup_table :
    auxKeyValDel
        [("Port_Group", [("uuidPG", [("name", Value.atom (.str "pg1")),
          ("external_ids", Value.map [(.str "k", .str "x")])])])]
        "Port_Group" "pg1" "external_ids" [("k", none)]
      = .errNotFound
    ∧ getRowUUID
        [("Port_Group", [("uuidPG", [("name", Value.atom (.str "pg1")),
          ("external_ids", Value.map [(.str "k", .str "x")])])])]
        "Port_Group" [("name", Value.atom (.str "pg1"))] = "uuidPG"
    ∧ auxKeyValDel
        [("Logical_Switch", [("uuidLS", [("name", Value.atom (.str "pg1"))])])]
        "Port_Group" "pg1" "external_ids" [("k", none), ("k2", some "v2")]
      = .cmd [⟨opMutate, "Port_Group",
          [⟨"external_ids", opDelete, Value.set [.str "k"]⟩,
            ⟨"external_ids", opDelete, Value.map [(.str "k2", .str "v2")]⟩],
          [⟨"_uuid", "==", Value.atom (.uuid "uuidLS")⟩]⟩] := by
  refine ⟨by decide, by decide, by decide⟩

end GoOvn

namespace GoOvn

/-- The candidate loop of `connect` (client.go), recording the attempted
cursor positions.  `n` is the endpoint count, `ok i` whether the attempt at
cursor `i` (transport dial plus `connectEndpoint`) succeeds, and the fuel is
the remaining iterations (`connect` runs the loop `n` times).  On success the
loop returns immediately with the cursor unmoved; on failure `nextEndpoint`
advances the cursor to `(cur + 1) % n` before the next attempt. -/
def connectGo (n : Nat) (ok : Nat → Bool) : Nat → Nat → List Nat × Bool × Nat
  | 0, cur => ([], false, cur)
  | fuel + 1, cur =>
    if ok cur then ([cur], true, cur)
    else
      let r := connectGo n ok fuel ((cur + 1) % n)
      (cur :: r.1, r.2.1, r.2.2)

/-- `connect` (client.go): try the endpoints once around, starting at the
current cursor; report failure after exhausting all `n` candidates. -/
def connect (n : Nat) (ok : Nat → Bool) (cur : Nat) : List Nat × Bool × Nat :=
  connectGo n ok n cur

theorem connectGo_allFail (n : Nat) (ok : Nat → Bool)
    (hfail : ∀ i, i < n → ok i = false) :
    ∀ fuel cur, cur < n →
      connectGo n ok fuel cur
        = ((List.range fuel).map (fun i => (cur + i) % n), false, (cur + fuel) % n) := by
  intro fuel
  induction fuel with
  | zero =>
    intro cur hcur
    simp [connectGo, Nat.mod_eq_of_lt hcur]
  | succ f ih =>
    intro cur hcur
    have hn : 0 < n := Nat.lt_of_le_of_lt (Nat.zero_le cur) hcur
    have hcur2 : (cur + 1) % n < n := Nat.mod_lt _ hn
    have hrec := ih ((cur + 1) % n) hcur2
    have h1 : (cur + 0) % n = cur := by simp [Nat.mod_eq_of_lt hcur]
    have h2 : ((fun i => (cur + i) % n) ∘ Nat.succ)
        = fun i => ((cur + 1) % n + i) % n := by
      funext i
      simp only [Function.comp]
      rw [Nat.mod_add_mod]
      congr 1
      omega
    have h3 : ((cur + 1) % n + f) % n = (cur + (f + 1)) % n := by
      rw [Nat.mod_add_mod]
      congr 1
      omega
    simp only [connectGo]
    rw [if_neg (by simp [hfail cur hcur])]
    simp only [hrec, List.range_succ_eq_map, List.map_cons, List.map_map, h1, h2, h3]

theorem connectGo_success (n : Nat) (ok : Nat → Bool) :
    ∀ j fuel cur, cur < n → j < fuel →
      (∀ i, i < j → ok ((cur + i) % n) = false) → ok ((cur + j) % n) = true →
      connectGo n ok fuel cur
        = ((List.range (j + 1)).map (fun i => (cur + i) % n), true, (cur + j) % n) := by
  intro j
  induction j with
  | zero =>
    intro fuel cur hcur hj _ hok
    rcases fuel with _ | f
    · omega
    · rw [Nat.add_zero, Nat.mod_eq_of_lt hcur] at hok
      simp [connectGo, hok, List.range_succ, Nat.mod_eq_of_lt hcur]
  | succ j ih =>
    intro fuel cur hcur hj hfails hok
    rcases fuel with _ | f
    · omega
    · have hn : 0 < n := Nat.lt_of_le_of_lt (Nat.zero_le cur) hcur
      have hcur2 : (cur + 1) % n < n := Nat.mod_lt _ hn
      have h0 : ok cur = false := by
        have hz := hfails 0 (Nat.succ_pos j)
        rwa [Nat.add_zero, Nat.mod_eq_of_lt hcur] at hz
      have hshift : ∀ i, ((cur + 1) % n + i) % n = (cur + (i + 1)) % n := by
        intro i
        rw [Nat.mod_add_mod]
        congr 1
        omega
      have hfails2 : ∀ i, i < j → ok (((cur + 1) % n + i) % n) = false := by
        intro i hi
        rw [hshift i]
        exact hfails (i + 1) (by omega)
      have hok2 : ok (((cur + 1) % n + j) % n) = true := by
        rw [hshift j]
        exact hok
      have hrec := ih f ((cur + 1) % n) hcur2 (by omega) hfails2 hok2
      have h2 : ((fun i => (cur + i) % n) ∘ Nat.succ)
          = fun i => ((cur + 1) % n + i) % n := by
        funext i
        simp only [Function.comp]
        rw [hshift i]
      have htrace : (List.range (j + 1 + 1)).map (fun i => (cur + i) % n)
          = cur :: (List.range (j + 1)).map (fun i => ((cur + 1) % n + i) % n) := by
        rw [List.range_succ_eq_map, List.map_cons, List.map_map, h2]
        simp [Nat.mod_eq_of_lt hcur]
      simp only [connectGo]
      rw [if_neg (by simp [h0])]
      simp only [hrec, htrace, hshift j]

/-- C7: starting at cursor `cur`, `connect` attempts the endpoints in
circular order.  If every attempt fails it visits each of the `n` endpoints
exactly once (the trace is duplicate-free and covers all of them), reports
failure, and the cursor has wrapped back to where it started; if the first
success is at offset `j`, it stops there after `j + 1` attempts with the
cursor resting on the successful endpoint. -/
theorem claim_C7_connect_failover (n cur : Nat) (ok : Nat → Bool) (hcur : cur < n) :
    ((∀ i, i < n → ok i = false) →
      connect n ok cur = ((List.range n).map (fun i => (cur + i) % n), false, cur)
      ∧ ((List.range n).map (fun i => (cur + i) % n)).Nodup
      ∧ ∀ e, e < n → e ∈ (List.range n).map (fun i => (cur + i) % n))
    ∧ (∀ j, j < n → (∀ i, i < j → ok ((cur + i) % n) = false) →
        ok ((cur + j) % n) = true →
        connect n ok cur
          = ((List.range (j + 1)).map (fun i => (cur + i) % n), true, (cur + j) % n)) := by
  have hn : 0 < n := Nat.lt_of_le_of_lt (Nat.zero_le cur) hcur
  constructor
  · intro hfail
    refine ⟨?_, ?_, ?_⟩
    · rw [connect, connectGo_allFail n ok hfail n cur hcur, Nat.add_mod_right,
        Nat.mod_eq_of_lt hcur]
    · refine List.Nodup.map_on ?_ (List.nodup_range n)
      intro i hi j hj hij
      rw [List.mem_range] at hi hj
      have hmod : i ≡ j [MOD n] := Nat.ModEq.add_left_cancel' cur hij
      have := hmod.eq_of_lt_of_lt hi hj
      exact this
    · intro e he
      refine List.mem_map.2 ⟨(e + n - cur) % n, List.mem_range.2 (Nat.mod_lt _ hn), ?_⟩
      rw [Nat.add_mod_mod]
      have : cur + (e + n - cur) = e + n := by omega
      rw [this, Nat.add_mod_right, Nat.mod_eq_of_lt he]
  · intro j hj hfails hok
    exact connectGo_success n ok j n cur hcur hj hfails hok

/-- C7 witness: with three endpoints and the cursor at A (index 0), failures
at A and B lead to an attempt at C; when C succeeds the cursor rests at C,
and when everything fails the trace is A, B, C and the cursor wraps to A. -/
theorem claim_C7_connect_failover_witness :
    connect 3 (fun i => i == 2) 0 = ([0, 1, 2], true, 2)
    ∧ connect 3 (fun _ => false) 0 = ([0, 1, 2], false, 0) := by
  constructor
  · have h := (claim_C7_connect_failover 3 0 (fun i => i == 2) (by decide)).2 2
      (by decide) (by decide) (by decide)
    simpa using h
  · have h := ((claim_C7_connect_failover 3 0 (fun _ => false) (by decide)).1
      (by intro i _; rfl)).1
    simpa using h

end GoOvn

namespace GoOvn

/-- `TableDatabase`, the server database's cluster-membership table name. -/
def TableDatabase : String := "Database"

/-- The per-row checks of `serverIsLeader` (client.go): a row is consulted
only when its `name` field is a string equal to the client's database name,
its `model` field is the string `clustered`, and its `leader` field is a
boolean; any other row is skipped. -/
def rowLeaderStatus (dbName : String) (r : Row) : Option Bool :=
  match getField r "name" with
  | some (.atom (.str name)) =>
    if name ≠ dbName then none
    else
      match getField r "model" with
      | some (.atom (.str model)) =>
        if model ≠ "clustered" then none
        else
          match getField r "leader" with
          | some (.atom (.bool b)) => some b
          | _ => none
      | _ => none
  | _ => none

/-- `serverIsLeader` (client.go): `true` when the server cache has no
cluster-membership table or no row passes the checks; otherwise the first
passing row's leader flag. -/
def serverIsLeader (dbName : String) (serverCache : Cache) : Bool :=
  match lookupTable serverCache TableDatabase with
  | none => true
  | some rows =>
    match rows.findSome? (fun p => rowLeaderStatus dbName p.2) with
    | some b => b
    | none => true

/-- The leader-only gate at the end of `connectEndpoint` (client.go): after
the initial dump it returns an error iff leader-only mode is on and the
connected server is not the leader. -/
def connectEndpointLeaderErr (leaderOnly : Bool) (dbName : String)
    (serverCache : Cache) : Bool :=
  leaderOnly && !(serverIsLeader dbName serverCache)

theorem findSome_false {α : Type} (f : α → Option Bool) (l : List α)
    (hex : ∃ p ∈ l, f p = some false) (hall : ∀ p ∈ l, f p ≠ some true) :
    l.findSome? f = some false := by
  induction l with
  | nil =>
    rcases hex with ⟨p, hp, _⟩
    cases hp
  | cons a t ih =>
    rcases hf : f a with _ | b
    · simp only [List.findSome?, hf]
      apply ih
      · rcases hex with ⟨p, hp, hpf⟩
        rcases List.mem_cons.1 hp with rfl | hp2
        · rw [hf] at hpf
          cases hpf
        · exact ⟨p, hp2, hpf⟩
      · intro p hp
        exact hall p (List.mem_cons_of_mem a hp)
    · have hb : b = false := by
        cases b
        · rfl
        · exact absurd hf (hall a (List.mem_cons_self a t))
      subst hb
      simp only [List.findSome?, hf]

/-- C8 (amended): with leader-only mode on, if after the initial dump the
cluster-membership table holds a row for the client's database whose model is
`clustered` and whose leader flag is false — and every such matching row
reports leader false — then the server is judged a follower, `connectEndpoint`
returns an error, and the `connect` loop records the failed attempt and
advances the cursor to the next candidate, `(cur + 1) % n`. -/
theorem claim_C8_leader_exclusion (dbName : String) (serverCache : Cache)
    (rows : CacheTable)
    (htab : lookupTable serverCache TableDatabase = some rows)
    (hex : ∃ p ∈ rows, rowLeaderStatus dbName p.2 = some false)
    (hall : ∀ p ∈ rows, rowLeaderStatus dbName p.2 ≠ some true) :
    serverIsLeader dbName serverCache = false
    ∧ connectEndpointLeaderErr true dbName serverCache = true
    ∧ ∀ n cur fuel (ok : Nat → Bool),
        ok cur = !connectEndpointLeaderErr true dbName serverCache →
        connectGo n ok (fuel + 1) cur
          = (cur :: (connectGo n ok fuel ((cur + 1) % n)).1,
            (connectGo n ok fuel ((cur + 1) % n)).2.1,
            (connectGo n ok fuel ((cur + 1) % n)).2.2) := by
  have h1 : serverIsLeader dbName serverCache = false := by
    simp only [serverIsLeader, htab]
    rw [findSome_false (fun p => rowLeaderStatus dbName p.2) rows hex hall]
  have h2 : connectEndpointLeaderErr true dbName serverCache = true := by
    simp [connectEndpointLeaderErr, h1]
  refine ⟨h1, h2, ?_⟩
  intro n cur fuel ok hok
  rw [h2] at hok
  simp only [connectGo]
  rw [if_neg (by simp [hok])]

/-- C8 witness: a clustered follower row for the client's database makes
`connectEndpoint` fail and the loop advance the cursor from 0 to 1. -/
theorem claim_C8_leader_exclusion_witness :
    serverIsLeader "OVN_Northbound"
        [("Database", [("r1", [("name", Value.atom (.str "OVN_Northbound")),
          ("model", Value.atom (.str "clustered")),
          ("leader", Value.atom (.bool false))])])] = false
    ∧ connectEndpointLeaderErr true "OVN_Northbound"
        [("Database", [("r1", [("name", Value.atom (.str "OVN_Northbound")),
          ("model", Value.atom (.str "clustered")),
          ("leader", Value.atom (.bool false))])])] = true := by
  have h := claim_C8_leader_exclusion "OVN_Northbound"
    [("Database", [("r1", [("name", Value.atom (.str "OVN_Northbound")),
      ("model", Value.atom (.str "clustered")),
      ("leader", Value.atom (.bool false))])])]
    [("r1", [("name", Value.atom (.str "OVN_Northbound")),
      ("model", Value.atom (.str "clustered")),
      ("leader", Value.atom (.bool false))])]
    (by decide)
    ⟨("r1", [("name", Value.atom (.str "OVN_Northbound")),
      ("model", Value.atom (.str "clustered")),
      ("leader", Value.atom (.bool false))]), by decide, by decide⟩
    (by decide)
  exact ⟨h.1, h.2.1⟩

/-- C8 counterexample: leader-only mode on and a cluster-membership row whose
name matches the database and whose leader flag is false — but with no
`clustered` model field — does not make `connectEndpoint` fail: the row is
skipped and the server is still treated as leader. -/
theorem claim_C8_counterexample :
    getField [("name", Value.atom (.str "OVN_Northbound")),
        ("leader", Value.atom (.bool false))] "name"
      = some (Value.atom (.str "OVN_Northbound"))
    ∧ getField [("name", Value.atom (.str "OVN_Northbound")),
        ("leader", Value.atom (.bool false))] "leader"
      = some (Value.atom (.bool false))
    ∧ lookupTable [("Database", [("r1", [("name", Value.atom (.str "OVN_Northbound")),
        ("leader", Value.atom (.bool false))])])] TableDatabase
      = some [("r1", [("name", Value.atom (.str "OVN_Northbound")),
        ("leader", Value.atom (.bool false))])]
    ∧ serverIsLeader "OVN_Northbound"
        [("Database", [("r1", [("name", Value.atom (.str "OVN_Northbound")),
          ("leader", Value.atom (.bool false))])])] = true
    ∧ connectEndpointLeaderErr true "OVN_Northbound"
        [("Database", [("r1", [("name", Value.atom (.str "OVN_Northbound")),
          ("leader", Value.atom (.bool false))])])] = false := by
  refine ⟨by decide, by decide, by decide, by decide, by decide⟩

end GoOvn

namespace GoOvn

theorem findIdx_eq_none_of_not_mem (e : Atom) :
    ∀ (s : List Atom) (i : Nat), e ∉ s →
      List.findIdx? (fun x => decide (x = e)) s i = none := by
  intro s
  induction s with
  | nil =>
    intro i _
    simp [List.findIdx?_nil]
  | cons a t ih =>
    intro i h
    rw [List.mem_cons, not_or] at h
    rw [List.findIdx?_cons,
      if_neg (by simp only [decide_eq_true_eq]; exact fun hae => h.1 hae.symm)]
    exact ih (i + 1) h.2

theorem findIdx_append_first (e : Atom) :
    ∀ (t₁ t₂ : List Atom) (i : Nat), e ∉ t₁ →
      List.findIdx? (fun x => decide (x = e)) (t₁ ++ e :: t₂) i
        = some (i + t₁.length) := by
  intro t₁
  induction t₁ with
  | nil =>
    intro t₂ i _
    simp [List.findIdx?_cons]
  | cons a t ih =>
    intro t₂ i h
    rw [List.mem_cons, not_or] at h
    rw [List.cons_append, List.findIdx?_cons,
      if_neg (by simp only [decide_eq_true_eq]; exact fun hae => h.1 hae.symm),
      ih t₂ (i + 1) h.2]
    simp only [List.length_cons]
    congr 1
    omega

theorem setMid : ∀ (t₁ : List Atom) (e : Atom) (t₂ : List Atom) (x : Atom),
    (t₁ ++ e :: t₂).set t₁.length x = t₁ ++ x :: t₂ := by
  intro t₁
  induction t₁ with
  | nil =>
    intro e t₂ x
    rfl
  | cons a t ih =>
    intro e t₂ x
    simp only [List.cons_append, List.length_cons, List.set_cons_succ]
    rw [ih]

theorem updateSetWithElem_not_mem (s : List Atom) (e : Atom) (h : e ∉ s) :
    updateSetWithElem s e = s ++ [e] := by
  simp only [updateSetWithElem, findIdx_eq_none_of_not_mem e s 0 h]

theorem updateSetWithElem_last (t₁ : List Atom) (e : Atom) (h : e ∉ t₁) :
    updateSetWithElem (t₁ ++ [e]) e = t₁ := by
  simp only [updateSetWithElem, findIdx_append_first e t₁ [] 0 h]
  rw [Nat.zero_add, List.getLastD_concat, setMid t₁ e [] e]
  exact List.dropLast_concat

theorem updateSetWithElem_mid (t₁ : List Atom) (e : Atom) (t₂ : List Atom) (b : Atom)
    (h : e ∉ t₁) :
    updateSetWithElem (t₁ ++ e :: (t₂ ++ [b])) e = t₁ ++ b :: t₂ := by
  have hassoc : t₁ ++ e :: (t₂ ++ [b]) = (t₁ ++ e :: t₂) ++ [b] := by simp
  have hassoc2 : t₁ ++ b :: (t₂ ++ [b]) = (t₁ ++ b :: t₂) ++ [b] := by simp
  simp only [updateSetWithElem, findIdx_append_first e t₁ (t₂ ++ [b]) 0 h]
  rw [Nat.zero_add,
    show ((t₁ ++ e :: (t₂ ++ [b])).getLastD e) = b from by
      rw [hassoc, List.getLastD_concat],
    setMid t₁ e (t₂ ++ [b]) b, hassoc2]
  exact List.dropLast_concat

theorem updateSetWithElem_remove (s : List Atom) (e : Atom) (hnd : s.Nodup)
    (he : e ∈ s) :
    (updateSetWithElem s e).Nodup
    ∧ ∀ x, x ∈ updateSetWithElem s e ↔ (x ∈ s ∧ x ≠ e) := by
  obtain ⟨t₁, t₂, rfl⟩ := List.append_of_mem he
  rw [List.nodup_append] at hnd
  obtain ⟨ht₁, hrest, hdisj⟩ := hnd
  rw [List.nodup_cons] at hrest
  obtain ⟨het₂, ht₂⟩ := hrest
  rw [List.disjoint_cons_right] at hdisj
  obtain ⟨het₁, hdisj₂⟩ := hdisj
  rcases List.eq_nil_or_concat t₂ with rfl | ⟨t₂', b, rfl⟩
  · rw [updateSetWithElem_last t₁ e het₁]
    refine ⟨ht₁, ?_⟩
    intro x
    constructor
    · intro hx
      exact ⟨List.mem_append_left _ hx, fun hxe => het₁ (hxe ▸ hx)⟩
    · rintro ⟨hx, hne⟩
      rcases List.mem_append.1 hx with hx | hx
      · exact hx
      · rcases List.mem_cons.1 hx with rfl | hx
        · exact absurd rfl hne
        · cases hx
  · rw [List.concat_eq_append] at het₂ ht₂ hdisj₂ ⊢
    rw [updateSetWithElem_mid t₁ e t₂' b het₁]
    rw [List.nodup_append] at ht₂
    obtain ⟨ht₂', hbn, hdisj₃⟩ := ht₂
    have hbt₂' : b ∉ t₂' := fun hb => hdisj₃ hb (List.mem_singleton_self b)
    refine ⟨?_, ?_⟩
    · refine List.Nodup.append ht₁ (List.nodup_cons.2 ⟨hbt₂', ht₂'⟩) ?_
      intro a ha hab
      rcases List.mem_cons.1 hab with rfl | hab
      · exact hdisj₂ ha (List.mem_append_right _ (List.mem_singleton_self a))
      · exact hdisj₂ ha (List.mem_append_left _ hab)
    · intro x
      simp only [List.mem_append, List.mem_cons, List.mem_singleton,
        List.not_mem_nil, or_false]
      constructor
      · rintro (hx | rfl | hx)
        · exact ⟨Or.inl hx, fun hxe => het₁ (hxe ▸ hx)⟩
        · refine ⟨Or.inr (Or.inr (Or.inr rfl)), fun hxe => het₂ ?_⟩
          rw [← hxe]
          simp
        · refine ⟨Or.inr (Or.inr (Or.inl hx)), fun hxe => het₂ ?_⟩
          rw [← hxe]
          exact List.mem_append_left _ hx
      · rintro ⟨hx | rfl | hx | rfl, hne⟩
        · exact Or.inl hx
        · exact absurd rfl hne
        · exact Or.inr (Or.inr hx)
        · exact Or.inr (Or.inl rfl)

theorem updateSetWithElem_toggle (s : List Atom) (e : Atom) (hnd : s.Nodup) :
    (updateSetWithElem s e).Nodup
    ∧ ∀ x, x ∈ updateSetWithElem s e ↔ (if x = e then e ∉ s else x ∈ s) := by
  by_cases he : e ∈ s
  · obtain ⟨h1, h2⟩ := updateSetWithElem_remove s e hnd he
    refine ⟨h1, ?_⟩
    intro x
    rw [h2 x]
    by_cases hx : x = e
    · subst hx
      simp [he]
    · simp [hx]
  · rw [updateSetWithElem_not_mem s e he]
    refine ⟨?_, ?_⟩
    · refine List.Nodup.append hnd (List.nodup_singleton e) ?_
      intro a ha hae
      rw [List.mem_singleton] at hae
      subst hae
      exact he ha
    · intro x
      by_cases hx : x = e
      · subst hx
        simp [List.mem_append, he]
      · simp [List.mem_append, hx]

theorem foldl_updateSet_toggle (es : List Atom) :
    ∀ s : List Atom, s.Nodup → es.Nodup →
      (es.foldl updateSetWithElem s).Nodup
      ∧ ∀ x, x ∈ es.foldl updateSetWithElem s ↔ (if x ∈ es then x ∉ s else x ∈ s) := by
  induction es with
  | nil =>
    intro s hs _
    refine ⟨hs, ?_⟩
    intro x
    simp
  | cons e es ih =>
    intro s hs hes
    rw [List.nodup_cons] at hes
    obtain ⟨hees, hesn⟩ := hes
    obtain ⟨hs', hmem'⟩ := updateSetWithElem_toggle s e hs
    obtain ⟨hres, hmem⟩ := ih (updateSetWithElem s e) hs' hesn
    refine ⟨by simpa [List.foldl_cons] using hres, ?_⟩
    intro x
    rw [List.foldl_cons, hmem x]
    by_cases hxe : x = e
    · subst hxe
      rw [if_neg hees, hmem' x, if_pos rfl, if_pos (List.mem_cons_self x es)]
    · have hx' : x ∈ updateSetWithElem s e ↔ x ∈ s := by
        rw [hmem' x, if_neg hxe]
      by_cases hxes : x ∈ es
      · rw [if_pos hxes, if_pos (List.mem_cons_of_mem e hxes), hx']
      · rw [if_neg hxes,
          if_neg (by rw [List.mem_cons]; push_neg; exact ⟨hxe, hxes⟩)]
        exact hx'

end GoOvn

namespace GoOvn

/-- C4: on a set-typed column, a modify-diff replaces the stored value
outright when the schema cardinality max is 1; when the max is greater
than 1, each incoming element is toggled against the existing set (for
duplicate-free sets, an element ends up in the result exactly when it was in
the cached set or in the diff but not both), and the result is stored as a
bare scalar when it has exactly one element, otherwise as a set. -/
theorem claim_C4_set_diff_toggle (ts : TableSchema) (col : String) (cs : ColumnSchema)
    (r : Row) (s es : List Atom)
    (hcol : lookupColumn ts col = some cs) (htype : cs.type = ColType.set)
    (hfield : getField r col = some (.set s)) :
    (cs.max = 1 →
      applyUpdatesToRow ts [(col, Value.set es)] r
        = some (setField r col (Value.set es)))
    ∧ (1 < cs.max → s.Nodup → es.Nodup →
      applyUpdatesToRow ts [(col, Value.set es)] r
          = some (setField r col (collapseSingleton (es.foldl updateSetWithElem s)))
      ∧ (∀ x, x ∈ es.foldl updateSetWithElem s ↔ (if x ∈ es then x ∉ s else x ∈ s))
      ∧ (∀ y, es.foldl updateSetWithElem s = [y] →
          collapseSingleton (es.foldl updateSetWithElem s) = Value.atom y)
      ∧ ((es.foldl updateSetWithElem s).length ≠ 1 →
          collapseSingleton (es.foldl updateSetWithElem s)
            = Value.set (es.foldl updateSetWithElem s))) := by
  constructor
  · intro hmax
    simp [applyUpdatesToRow, hcol, applyColumnDiff, htype, hmax]
  · intro hmax hs hes
    have hne : ¬(cs.max = 1) := by omega
    refine ⟨?_, (foldl_updateSet_toggle es s hs hes).2, ?_, ?_⟩
    · simp [applyUpdatesToRow, hcol, applyColumnDiff, htype, hne, hfield, modifySet]
    · intro y hy
      rw [hy]
      rfl
    · intro hlen
      rcases hnv : es.foldl updateSetWithElem s with _ | ⟨a, t⟩
      · rfl
      · rcases t with _ | ⟨b, t'⟩
        · rw [hnv] at hlen
          simp at hlen
        · rfl

/-- C4 witness: toggling diff `\x7ba, b\x7d` against the cached singleton set
`\x7ba\x7d` with max 2 removes `a`, adds `b`, and stores the one-element
result collapsed to the bare scalar `b`; with max 1 the incoming set replaces
the column outright. -/
theorem claim_C4_set_diff_toggle_witness :
    applyUpdatesToRow [("c", ⟨ColType.set, 0, 2⟩)]
        [("c", Value.set [Atom.str "a", Atom.str "b"])]
        [("c", Value.set [Atom.str "a"])]
      = some [("c", Value.atom (.str "b"))]
    ∧ applyUpdatesToRow [("c", ⟨ColType.set, 0, 1⟩)]
        [("c", Value.set [Atom.str "z"])]
        [("c", Value.set [Atom.str "a"])]
      = some [("c", Value.set [Atom.str "z"])] := by
  constructor
  · have h := (claim_C4_set_diff_toggle [("c", ⟨ColType.set, 0, 2⟩)] "c"
      ⟨ColType.set, 0, 2⟩ [("c", Value.set [Atom.str "a"])]
      [Atom.str "a"] [Atom.str "a", Atom.str "b"]
      (by decide) rfl (by decide)).2 (by decide) (by decide) (by decide)
    exact h.1.trans (by decide)
  · have h := (claim_C4_set_diff_toggle [("c", ⟨ColType.set, 0, 1⟩)] "c"
      ⟨ColType.set, 0, 1⟩ [("c", Value.set [Atom.str "a"])]
      [Atom.str "a"] [Atom.str "z"]
      (by decide) rfl (by decide)).1 rfl
    exact h.trans (by decide)

end GoOvn
